import Mathlib

/-!
Verification of the typed IRC message framework (raw-line codec, tag escaping,
sender-prefix parsing, declarative parameter resolution, serialization, and
reply-capture entry points) against its natural-language specification.

The development shallowly embeds the JavaScript/TypeScript source: strings are
Lean `String`s (lists of characters), JavaScript's `split(sep)` / `split(sep, 2)`,
`trim`, `toUpperCase`, object-key lookup and `Map.set` are modelled by the
`js*` helpers below with their exact ECMAScript semantics (split keeps empty
segments; a limit truncates the segment list; `Map.set` overwrites in place).
Thrown exceptions are modelled with `Except`.
-/

deriving instance DecidableEq for Except

/-- Splitting a character list on a separator character, accumulator-style:
this is the ECMAScript `String.prototype.split` with a one-character
separator (empty segments kept, result never empty). -/
def splitChAux (sep : Char) : List Char → List Char → List String
  | [], cur => [⟨cur.reverse⟩]
  | c :: rest, cur =>
    if c = sep then ⟨cur.reverse⟩ :: splitChAux sep rest []
    else splitChAux sep rest (c :: cur)

/-- JavaScript `s.split(sep)` for a one-character separator. -/
def splitCh (sep : Char) (s : String) : List String :=
  splitChAux sep s.data []

/-- JavaScript `arr.join(' ')`. -/
def joinSpace (ss : List String) : String :=
  ⟨List.intercalate [' '] (ss.map String.data)⟩

/-- JavaScript `s.toUpperCase()` (ASCII fragment, all the source needs). -/
def jsToUpper (s : String) : String :=
  ⟨s.data.map Char.toUpper⟩

/-- The characters ECMAScript `String.prototype.trim` removes (ASCII
fragment; the protocol text the source trims is ASCII). -/
def jsIsWhitespace (c : Char) : Bool :=
  c = ' ' || c = '\t' || c = '\n' || c = '\r' || c = '\x0b' || c = '\x0c'

/-- JavaScript `s.trim()`. -/
def jsTrim (s : String) : String :=
  ⟨((s.data.dropWhile jsIsWhitespace).reverse.dropWhile jsIsWhitespace).reverse⟩

/-- JavaScript property lookup `obj[key]` on an insertion-ordered object,
modelled as an association list: the first binding of the key, if any. -/
def jsLookup (l : List (String × α)) (n : String) : Option α :=
  (l.find? (fun p => p.1 == n)).map (·.2)

/-- JavaScript `Map.prototype.set`: overwrite the value in place if the key is
present, otherwise append the new binding. -/
def jsSetTag (m : List (String × String)) (k v : String) : List (String × String) :=
  if m.any (fun p => p.1 == k) then m.map (fun p => if p.1 == k then (k, v) else p)
  else m ++ [(k, v)]

/-- Characters excluded from channel names past the first by the source's
regular expression `[^ \b\0\n\r,]` — note `\b` inside a character class is
BACKSPACE (U+0008). -/
def channelBadChars : List Char := [' ', '\x08', '\x00', '\n', '\r', ',']

/-- `isChannel` from `Toolkit/StringTools.ts`: the test
`new RegExp("^[" + escapeRegexString(validTypes) + "][^ \b\0\n\r,]+$").test(str)`,
i.e. the first character is one of `validTypes` (matched literally thanks to
the escaping) and at least one further character follows, none of them in the
excluded class. -/
def isChannel (str : String) (validTypes : String) : Bool :=
  match str.data with
  | [] => false
  | c :: rest =>
    validTypes.data.contains c && !rest.isEmpty &&
      rest.all (fun ch => !channelBadChars.contains ch)

/-- One positional parameter token: `MessageParam` from `Message.ts`. -/
structure MessageParam where
  value : String
  trailing : Bool
deriving DecidableEq, Repr

/-- One entry of a command's parameter specification: `MessageParamSpecEntry`
from `Message.ts`. `chanType` models `type: 'channel'`; `matchPat` models the
optional `match` regular expression as a decidable test. -/
structure MessageParamSpecEntry where
  trailing : Bool := false
  rest : Bool := false
  optional : Bool := false
  chanType : Bool := false
  matchPat : Option (String → Bool) := none

/-- The statics of one message class: `COMMAND`, `PARAM_SPEC` (insertion-ordered,
hence a list) and `SUPPORTS_CAPTURE`. -/
structure MessageDescriptor where
  COMMAND : String
  PARAM_SPEC : List (String × MessageParamSpecEntry)
  SUPPORTS_CAPTURE : Bool := false

/-- A parsed sender prefix: `MessagePrefix` from `Message.ts` (`user` and
`host` are absent unless assigned). -/
structure MessagePrefix where
  raw : String
  nick : String
  user : Option String := none
  host : Option String := none
deriving DecidableEq, Repr

/-- The slice of `Client` the message framework reads: the configured
channel-type characters and the command registry (`knowsCommand` /
`getCommandClass`). The registry itself lives outside the embedded core;
it is an association list built at startup. -/
structure Client where
  channelTypes : String := "#&"
  registry : List (String × MessageDescriptor) := []

def Client.getCommandClass (c : Client) (cmd : String) : Option MessageDescriptor :=
  jsLookup c.registry cmd

def Client.knowsCommand (c : Client) (cmd : String) : Bool :=
  (c.getCommandClass cmd).isSome

/-- The exceptions the embedded code can throw, one constructor per `throw`
site (plus the `TypeError` raised by calling `.replace` on `undefined`). -/
inductive MsgError where
  | lineWithoutCommand (line : String)
  | tagValueUndefined (tagName : String)
  | paramCountUnderflow (command : String) (expected got : Nat)
  | notEnoughParamsLeft
  | paramUnderflow
  | noRestParams (name : String)
  | paramRequirementsNotMet (name : String) (index : Nat) (value : String)
  | requiredParamInvalid (name value : String)
  | requiredParamMissing (name command : String)
  | captureUnsupported (command : String)
deriving DecidableEq, Repr

/-- The escape table `tagEscapeMap` from `Message.ts`. It is only consulted on
the characters the regular expression `\\([\\:nrs])` captures. -/
def tagEscapeMap (c : Char) : Char :=
  if c = '\\' then '\\'
  else if c = ':' then ';'
  else if c = 'n' then '\n'
  else if c = 'r' then '\r'
  else if c = 's' then ' '
  else c

/-- Whether a character is one the unescaping regular expression
`/\\([\\:nrs])/g` captures after a backslash. -/
def isTagEscapeChar (c : Char) : Bool :=
  c = '\\' || c = ':' || c = 'n' || c = 'r' || c = 's'

/-- The global-regex replacement `value.replace(/\\([\\:nrs])/g, m => tagEscapeMap[m])`
as a left-to-right scan: a backslash followed by one of `\:nrs` is replaced by
the mapped character; any other backslash (unknown escape or final lone
backslash) is left in place and scanning resumes at the next character. -/
def unescapeAux : List Char → List Char
  | [] => []
  | c :: rest =>
    if c = '\\' then
      match rest with
      | [] => ['\\']
      | c2 :: rest2 =>
        if isTagEscapeChar c2 then tagEscapeMap c2 :: unescapeAux rest2
        else '\\' :: unescapeAux (c2 :: rest2)
    else c :: unescapeAux rest

def unescapeTagValue (v : String) : String :=
  ⟨unescapeAux v.data⟩

/-- The inverse mapping (the encode direction the specification describes):
`\` → `\\`, `;` → `\:`, LF → `\n`, CR → `\r`, SP → `\s`. -/
def escapeChar (c : Char) : List Char :=
  if c = '\\' then ['\\', '\\']
  else if c = ';' then ['\\', ':']
  else if c = '\n' then ['\\', 'n']
  else if c = '\r' then ['\\', 'r']
  else if c = ' ' then ['\\', 's']
  else [c]

def escapeTagValue (v : String) : String :=
  ⟨v.data.flatMap escapeChar⟩

/-- `Message.parseTags`: split the tag block on `;`; each piece is split on
`=` with limit 2 (`tagString.split('=', 2)`), so a piece with no `=` leaves
`tagValue` as `undefined` and the subsequent `tagValue.replace(...)` throws a
`TypeError`. Values are unescaped and entered into the map (last wins). -/
def Message.parseTags (raw : String) : Except MsgError (List (String × String)) :=
  (splitCh ';' raw).foldlM
    (fun tags tagString =>
      let parts := (splitCh '=' tagString).take 2
      let tagName := (parts.get? 0).getD ""
      match parts.get? 1 with
      | none => .error (.tagValueUndefined tagName)
      | some tagValue => .ok (jsSetTag tags tagName (unescapeTagValue tagValue)))
    []

/-- `Message.parsePrefix`: `raw.split('!', 2)` (the JavaScript limit TRUNCATES:
text from a second `!` on is discarded), then — only when the second segment
exists and is non-empty (truthiness) — `hostName.split('@', 2)` likewise. -/
def Message.parsePrefix (raw : String) : MessagePrefix :=
  let parts := splitCh '!' raw
  let nick := (parts.get? 0).getD ""
  match parts.get? 1 with
  | none => { raw := raw, nick := nick }
  | some hostName =>
    if hostName = "" then { raw := raw, nick := nick }
    else
      let parts2 := splitCh '@' hostName
      let user := (parts2.get? 0).getD ""
      match parts2.get? 1 with
      | none => { raw := raw, nick := nick, host := some user }
      | some host =>
        if host = "" then { raw := raw, nick := nick, host := some user }
        else { raw := raw, nick := nick, user := some user, host := some host }

/-- What the tokenizing `while` loop of `Message.parse` accumulates. -/
structure RawLine where
  tags : Option (List (String × String)) := none
  pfx : Option MessagePrefix := none
  command : Option String := none
  params : List MessageParam := []
deriving DecidableEq, Repr

/-- JavaScript falsiness of the loop's `command` variable: `undefined` and
the empty string are falsy (an empty token sets `command = ''`, which `!command`
still treats as unset). -/
def jsFalsyStr : Option String → Bool
  | none => true
  | some s => s == ""

/-- The tokenizing `while` loop of `Message.parse`, one iteration per token:
a leading `@token` (before tags and while `command` is falsy) parses tags; a
`:token` parses the prefix if no prefix was seen and `command` is falsy,
otherwise captures the rest of the line (rejoined on spaces, minus the
leading `:`) as one trailing parameter and stops; the first other token
while `command` is falsy becomes the upper-cased command; later tokens are
plain parameters. -/
def parseLineLoop : List String → RawLine → Except MsgError RawLine
  | [], acc => .ok acc
  | tok :: rest, acc =>
    if tok.data.head? = some '@' ∧ acc.tags = none ∧ jsFalsyStr acc.command = true then
      match Message.parseTags ⟨tok.data.tail⟩ with
      | .error e => .error e
      | .ok t => parseLineLoop rest { acc with tags := some t }
    else if tok.data.head? = some ':' then
      if acc.pfx = none ∧ jsFalsyStr acc.command = true then
        parseLineLoop rest { acc with pfx := some (Message.parsePrefix ⟨tok.data.tail⟩) }
      else
        .ok { acc with
              params := acc.params ++ [⟨⟨(joinSpace (tok :: rest)).data.tail⟩, true⟩] }
    else if jsFalsyStr acc.command = true then
      parseLineLoop rest { acc with command := some (jsToUpper tok) }
    else
      parseLineLoop rest { acc with params := acc.params ++ [⟨tok, false⟩] }

/-- `Message.checkParam` (the static): the channel check first (against the
client's configured channel types), then the `match` pattern; both must pass. -/
def checkParam (client : Client) (param : String) (spec : MessageParamSpecEntry) : Bool :=
  (!spec.chanType || isChannel param client.channelTypes) &&
    (match spec.matchPat with
     | some pat => pat param
     | none => true)

/-- `minParamCount`: the number of non-optional entries of `PARAM_SPEC`;
derived on access, never stored. -/
def Message.minParamCount (spec : List (String × MessageParamSpecEntry)) : Nat :=
  (spec.filter (fun e => !e.2.optional)).length

/-- The greedy collection of the `rest` `while` loop: the values of the
consecutive non-trailing tokens from the current index on. -/
def collectRestAux : List MessageParam → List String
  | [] => []
  | p :: rest => if p.trailing then [] else p.value :: collectRestAux rest

/-- The entry walk of `Message.parseParams`, one iteration per `PARAM_SPEC`
entry, carrying the token index `i`, the countdown `requiredLeft` and the
accumulated resolved parameters. Mirrors the source's control flow exactly:
`continue` recurses on the remaining entries with unchanged state, `break`
returns the accumulator, `throw` is `.error`. -/
def parseParamsLoop (client : Client) (params : List MessageParam) :
    List (String × MessageParamSpecEntry) → Nat → Nat →
    List (String × MessageParam) → Except MsgError (List (String × MessageParam))
  | [], _, _, acc => .ok acc
  | (name, e) :: ents, i, requiredLeft, acc =>
    if params.length - i ≤ requiredLeft ∧ e.optional = true then
      parseParamsLoop client params ents i requiredLeft acc
    else if params.length - i ≤ requiredLeft ∧ params.length - i ≠ requiredLeft then
      .error .notEnoughParamsLeft
    else
      match params.get? i with
      | none => if e.optional then .ok acc else .error .paramUnderflow
      | some p0 =>
        let restC := collectRestAux (params.drop i)
        if e.rest ∧ restC = [] then
          if e.optional then parseParamsLoop client params ents i requiredLeft acc
          else .error (.noRestParams name)
        else
          let param : MessageParam := if e.rest then ⟨joinSpace restC, false⟩ else p0
          let i' := if e.rest then i + restC.length else i
          if checkParam client param.value e then
            let acc' := acc ++ [(name, param)]
            let requiredLeft' := if e.optional then requiredLeft else requiredLeft - 1
            let i'' := if e.rest then i' else i' + 1
            if e.trailing then .ok acc'
            else parseParamsLoop client params ents i'' requiredLeft' acc'
          else if e.optional = false then
            .error (.paramRequirementsNotMet name i' param.value)
          else if e.trailing then .ok acc
          else parseParamsLoop client params ents i' requiredLeft acc

/-- `Message.parseParams` (the instance method, run from the constructor on a
present `_params`): the up-front count check
`if (requiredParamsLeft > this._params.length) throw`, then the entry walk. -/
def Message.parseParams (client : Client) (command : String)
    (spec : List (String × MessageParamSpecEntry)) (params : List MessageParam) :
    Except MsgError (List (String × MessageParam)) :=
  let required := Message.minParamCount spec
  if params.length < required then
    .error (.paramCountUnderflow command required params.length)
  else
    parseParamsLoop client params spec 0 required []

/-- The statics of the base `Message` class, used as the fallback for unknown
commands: `COMMAND = ''`, `PARAM_SPEC = {}` (no entries), no capture support. -/
def Message.generic : MessageDescriptor :=
  { COMMAND := "", PARAM_SPEC := [], SUPPORTS_CAPTURE := false }

/-- A fully parsed message: the fields `new messageClass(client, command,
params, tags, prefix)` stores, plus the resolved parameters the constructor's
`parseParams()` call computes. -/
structure ParsedMessage where
  command : String
  params : List MessageParam
  tags : List (String × String)
  pfx : Option MessagePrefix
  parsedParams : List (String × MessageParam)
deriving DecidableEq, Repr

/-- `Message.parse`: tokenize the line, fail on a falsy command (absent or
empty), pick the registered class for the command or fall back to the generic
base class, and construct the message (resolving its parameters). -/
def Message.parse (line : String) (client : Client) : Except MsgError ParsedMessage :=
  match parseLineLoop (splitCh ' ' line) {} with
  | .error e => .error e
  | .ok raw =>
    match raw.command with
    | none => .error (.lineWithoutCommand line)
    | some command =>
      if command = "" then .error (.lineWithoutCommand line)
      else
        let messageClass :=
          if client.knowsCommand command then (client.getCommandClass command).getD Message.generic
          else Message.generic
        match Message.parseParams client command messageClass.PARAM_SPEC raw.params with
        | .error e => .error e
        | .ok pp =>
          .ok { command := command, params := raw.params, tags := raw.tags.getD [],
                pfx := raw.pfx, parsedParams := pp }

/-- The `ObjectTools.forEach` body of `Message.create`, one iteration per
`PARAM_SPEC` entry: a supplied value is validated and entered with the
entry's trailing flag; an invalid value throws for a required entry and is
dropped for an optional one; after that, a required entry still missing from
the accumulated map throws. -/
def createLoop (client : Client) (command : String) (vals : List (String × String)) :
    List (String × MessageParamSpecEntry) → List (String × MessageParam) →
    Except MsgError (List (String × MessageParam))
  | [], acc => .ok acc
  | (name, e) :: ents, acc =>
    let step : Except MsgError (List (String × MessageParam)) :=
      match jsLookup vals name with
      | some v =>
        if checkParam client v e then .ok (acc ++ [(name, ⟨v, e.trailing⟩)])
        else if e.optional = false then .error (.requiredParamInvalid name v)
        else .ok acc
      | none => .ok acc
    match step with
    | .error err => .error err
    | .ok acc' =>
      if (jsLookup acc' name).isNone ∧ e.optional = false then
        .error (.requiredParamMissing name command)
      else createLoop client command vals ents acc'

/-- `Message.create` (the static): build a message whose `_parsedParams` is
the validated named-value map; its `_command` is the class's `COMMAND`. -/
def Message.create (desc : MessageDescriptor) (client : Client)
    (vals : List (String × String)) : Except MsgError (List (String × MessageParam)) :=
  createLoop client desc.COMMAND vals desc.PARAM_SPEC []

/-- `Message.toString`: the command, then for each `PARAM_SPEC` key in order
the resolved value if present (prefixed by `:` when its trailing flag is
set), joined by single spaces. -/
def Message.toLine (desc : MessageDescriptor) (command : String)
    (pp : List (String × MessageParam)) : String :=
  joinSpace (command ::
    desc.PARAM_SPEC.filterMap (fun ne =>
      (jsLookup pp ne.1).map (fun p => (if p.trailing then ":" else "") ++ p.value)))

/-- The externally visible effects of `sendAndCaptureReply`, in order. -/
inductive ClientEffect where
  | collectRegistered
  | sent
deriving DecidableEq, Repr

/-- `Message.sendAndCaptureReply`: throw `CaptureUnsupportedError` if the
class does not support capture; otherwise obtain the collector's promise
(`this._client.collect(this).promise()`), send, and return the promise.
Modelled from the spec: `Client.collect` itself is not among the repository's
files; per the specification it registers an Open PendingCapture keyed by the
sent message and returns a waitable handle, so it is modelled as the
`collectRegistered` effect and the returned handle as `Unit`. The result pair
is (effects performed in order, thrown error or returned handle). -/
def Message.sendAndCaptureReply (desc : MessageDescriptor) :
    List ClientEffect × Except MsgError Unit :=
  if !desc.SUPPORTS_CAPTURE then
    ([], .error (.captureUnsupported desc.COMMAND))
  else
    ([.collectRegistered, .sent], .ok ())

/-- The `target` pattern of `CapabilityNegotiation.PARAM_SPEC`:
`/^(?:[a-z_\-\[\]\\^{}|`][a-z0-9_\-\[\]\\^{}|`]*|\*)$/i` — first character of
the nick alternative (case-insensitive letters plus the listed specials). -/
def capNickFirst (c : Char) : Bool :=
  c.isAlpha || c = '_' || c = '-' || c = '[' || c = ']' || c = '\\' ||
    c = '^' || c = '\x7b' || c = '\x7d' || c = '|' || c = '\x60'

def capNickRest (c : Char) : Bool :=
  capNickFirst c || c.isDigit

def capTargetMatch (s : String) : Bool :=
  s = "*" ||
    (match s.data with
     | [] => false
     | c :: rest => capNickFirst c && rest.all capNickRest)

/-- The `command` pattern: `/^(?:LS|LIST|REQ|ACK|NAK|END|NEW|DEL)$/i`. -/
def capCommandMatch (s : String) : Bool :=
  ["LS", "LIST", "REQ", "ACK", "NAK", "END", "NEW", "DEL"].contains (jsToUpper s)

/-- The `version` pattern: `/^\d+$/`. -/
def capVersionMatch (s : String) : Bool :=
  !s.data.isEmpty && s.data.all (fun c => c.isDigit)

/-- The `continued` pattern: `/^\*$/`. -/
def capContinuedMatch (s : String) : Bool :=
  s = "*"

/-- The statics of `CapabilityNegotiation` from
`Message/MessageTypes/Commands/CapabilityNegotiation.ts`. -/
def CapabilityNegotiation : MessageDescriptor :=
  { COMMAND := "CAP"
    PARAM_SPEC :=
      [ ("target", { optional := true, matchPat := some capTargetMatch })
      , ("command", { matchPat := some capCommandMatch })
      , ("version", { optional := true, matchPat := some capVersionMatch })
      , ("continued", { optional := true, matchPat := some capContinuedMatch })
      , ("capabilities", { trailing := true, optional := true }) ]
    SUPPORTS_CAPTURE := true }

/-- The statics of `ChannelInvite` from
`Message/MessageTypes/Commands/ChannelInvite.ts`: `INVITE` with a free-form
`target` and a channel-checked `channel`, both required. -/
def ChannelInvite : MessageDescriptor :=
  { COMMAND := "INVITE"
    PARAM_SPEC :=
      [ ("target", {})
      , ("channel", { chanType := true }) ]
    SUPPORTS_CAPTURE := false }

/-- The value of one resolved parameter of a message, as JavaScript's
`this.params.name` reads it: `undefined` (`none`) when the name was never
assigned. -/
def paramValue (pp : List (String × MessageParam)) (name : String) : Option String :=
  (jsLookup pp name).map (·.value)

/-- JavaScript truthiness of `this.params.name`: false for `undefined` and
for the empty string. -/
def paramTruthy (pp : List (String × MessageParam)) (name : String) : Bool :=
  match paramValue pp name with
  | none => false
  | some s => s ≠ ""

/-- `CapabilityNegotiation.isResponseTo`, on the resolved parameter maps of
the reply (`this`) and the originating message. `origIsCap` models the
`originalMessage instanceof CapabilityNegotiation` guard. The result is
`none` when the code throws: for an `ACK`/`NAK` reply to a `REQ`, the
right-hand conjunct evaluates `this.params.capabilities.trim()`, a
`TypeError` when the reply carries no capabilities value (the left-hand
`originalMessage.params.command === 'REQ'` conjunct short-circuits first). -/
def CapabilityNegotiation.isResponseTo (origIsCap : Bool)
    (reply orig : List (String × MessageParam)) : Option Bool :=
  if !origIsCap then some false
  else
    match paramValue reply "command" with
    | some c =>
      if c = "ACK" ∨ c = "NAK" then
        if paramValue orig "command" = some "REQ" then
          match paramValue reply "capabilities" with
          | none => none
          | some rc => some (decide (paramValue orig "capabilities" = some (jsTrim rc)))
        else some false
      else if c = "LS" ∨ c = "LIST" then
        some (decide (paramValue orig "command" = some c))
      else some false
    | none => some false

/-- `CapabilityNegotiation.endsResponseTo`: for an `LS`/`LIST` reply, the
exchange continues while the `continued` marker is truthy; every other reply
ends it. -/
def CapabilityNegotiation.endsResponseTo (origIsCap : Bool)
    (reply : List (String × MessageParam)) : Bool :=
  if !origIsCap then false
  else
    match paramValue reply "command" with
    | some c =>
      if c = "LS" ∨ c = "LIST" then !paramTruthy reply "continued"
      else true
    | none => true

/-- Modelled from the spec: the ReplyCorrelator's `PendingCapture` (the
collector returned by `Client.collect` is not among the repository's files).
It accumulates accepted messages in arrival order and closes when an
accepted message ends the exchange. -/
structure PendingCapture where
  accumulated : List (List (String × MessageParam)) := []
  closed : Bool := false
deriving DecidableEq, Repr

/-- Modelled from the spec: offering one inbound capability-negotiation
message to a pending capture — accepted iff `isResponseTo` returns `true`
(a thrown `TypeError` propagates out of the receive path and accepts
nothing); after acceptance `endsResponseTo` decides completion. A closed
capture is removed from the live set, so it accepts nothing further. -/
def offerMessage (origIsCap : Bool) (orig : List (String × MessageParam))
    (pc : PendingCapture) (m : List (String × MessageParam)) : PendingCapture :=
  if pc.closed then pc
  else if CapabilityNegotiation.isResponseTo origIsCap m orig = some true then
    { accumulated := pc.accumulated ++ [m]
      closed := CapabilityNegotiation.endsResponseTo origIsCap m }
  else pc

/-! ### Lemmas about the string primitives -/

theorem intercalate_cons_cons (s a b : List Char) (r : List (List Char)) :
    List.intercalate s (a :: b :: r) = a ++ s ++ List.intercalate s (b :: r) := by
  simp [List.intercalate, List.intersperse]

theorem head?_drop_eq_get? (l : List MessageParam) (n : Nat) :
    (l.drop n).head? = l.get? n := by
  induction l generalizing n with
  | nil => simp
  | cons c l ih =>
    cases n with
    | zero => simp
    | succ n => exact ih n

theorem splitChAux_append (sep : Char) (l₁ l₂ : List Char) :
    ∀ cur, splitChAux sep (l₁ ++ sep :: l₂) cur =
      splitChAux sep l₁ cur ++ splitChAux sep l₂ [] := by
  induction l₁ with
  | nil => intro cur; simp [splitChAux]
  | cons c l₁ ih =>
    intro cur
    by_cases hc : c = sep
    · subst hc; simp [splitChAux, ih]
    · simp [splitChAux, hc, ih]

theorem splitChAux_no_sep (sep : Char) (l : List Char) (hl : sep ∉ l) :
    ∀ cur, splitChAux sep l cur = [⟨cur.reverse ++ l⟩] := by
  induction l with
  | nil => intro cur; simp [splitChAux]
  | cons c l ih =>
    intro cur
    have hc : c ≠ sep := fun h => hl (h ▸ List.mem_cons_self c l)
    have hl' : sep ∉ l := fun h => hl (List.mem_cons_of_mem c h)
    simp [splitChAux, hc, ih hl']

theorem splitCh_no_sep (sep : Char) (s : String) (hs : sep ∉ s.data) :
    splitCh sep s = [s] := by
  simp [splitCh, splitChAux_no_sep sep s.data hs]

theorem splitChAux_ne_nil (sep : Char) (l : List Char) :
    ∀ cur, splitChAux sep l cur ≠ [] := by
  induction l with
  | nil => intro cur; simp [splitChAux]
  | cons c l ih =>
    intro cur
    by_cases hc : c = sep
    · subst hc; simp [splitChAux]
    · simp only [splitChAux, if_neg hc]
      exact ih (c :: cur)

theorem joinSpace_splitChAux (l : List Char) :
    ∀ cur, List.intercalate [' '] ((splitChAux ' ' l cur).map String.data) =
      cur.reverse ++ l := by
  induction l with
  | nil => intro cur; simp [splitChAux, List.intercalate]
  | cons c l ih =>
    intro cur
    by_cases hc : c = ' '
    · subst hc
      simp only [splitChAux, eq_self_iff_true, ite_true, List.map_cons]
      cases h : (splitChAux ' ' l []).map String.data with
      | nil =>
        rw [List.map_eq_nil_iff] at h
        exact absurd h (splitChAux_ne_nil ' ' l [])
      | cons a r =>
        rw [intercalate_cons_cons]
        have := ih []
        rw [h] at this
        rw [this]
        simp
    · simp only [splitChAux, if_neg hc]
      rw [ih (c :: cur)]
      simp

theorem joinSpace_splitCh (s : String) : joinSpace (splitCh ' ' s) = s := by
  cases s with
  | mk l => simp [joinSpace, splitCh, joinSpace_splitChAux]

theorem splitCh_joinSpace (ss : List String) (hne : ss ≠ []) :
    splitCh ' ' (joinSpace ss) = ss.flatMap (splitCh ' ') := by
  induction ss with
  | nil => exact absurd rfl hne
  | cons s ss ih =>
    cases ss with
    | nil => simp [joinSpace, List.intercalate, splitCh]
    | cons t ts =>
      have : joinSpace (s :: t :: ts) = ⟨s.data ++ ' ' :: (joinSpace (t :: ts)).data⟩ := by
        simp [joinSpace, intercalate_cons_cons]
      rw [this]
      show splitChAux ' ' (s.data ++ ' ' :: (joinSpace (t :: ts)).data) [] = _
      rw [splitChAux_append]
      rw [show splitChAux ' ' (joinSpace (t :: ts)).data [] = splitCh ' ' (joinSpace (t :: ts)) from rfl]
      rw [ih (by simp)]
      simp [splitCh]

theorem splitChAux_eq_cons (sep : Char) (l : List Char) :
    ∀ cur, splitChAux sep l cur =
      ⟨cur.reverse ++ l.takeWhile (fun c => !(c = sep : Bool))⟩ ::
        (match l.dropWhile (fun c => !(c = sep : Bool)) with
         | [] => []
         | _ :: rest => splitChAux sep rest []) := by
  induction l with
  | nil => intro cur; simp [splitChAux]
  | cons c l ih =>
    intro cur
    by_cases hc : c = sep
    · subst hc
      simp [splitChAux, List.takeWhile, List.dropWhile]
    · simp only [splitChAux, if_neg hc]
      rw [ih (c :: cur)]
      simp [List.takeWhile, List.dropWhile, hc]

/-! ### Lookup lemmas and the side conditions of the round trip -/

theorem jsLookup_cons_self (n : String) (v : α) (l : List (String × α)) :
    jsLookup ((n, v) :: l) n = some v := by
  simp [jsLookup, List.find?]

theorem jsLookup_cons_ne (n m : String) (v : α) (l : List (String × α)) (h : m ≠ n) :
    jsLookup ((n, v) :: l) m = jsLookup l m := by
  simp only [jsLookup, List.find?]
  have : ((n, v).1 == m) = false := by simpa using fun he => h he.symm
  rw [this]

/-- A value that re-tokenizes to itself as one plain parameter token: no
space, and it does not begin the trailing marker. -/
def tokenSafeB (s : String) : Bool :=
  !s.data.contains ' ' && s.data.head? != some ':'

/-- The conditions under which one supplied parameter value round-trips
through one `PARAM_SPEC` entry: matching trailing flag, passing validator,
not a `rest` entry, and (for a non-trailing entry) token-safe. -/
def entryValueOkB (client : Client) (ne : String × MessageParamSpecEntry)
    (p : MessageParam) : Bool :=
  (p.trailing == ne.2.trailing) && checkParam client p.value ne.2 &&
    !ne.2.rest && (ne.2.trailing || tokenSafeB p.value)

/-- `entryValueOkB` for every entry against the matching value, the two lists
in lockstep. -/
def entriesValuesOk (client : Client) :
    List (String × MessageParamSpecEntry) → List MessageParam → Bool
  | [], [] => true
  | _ :: _, [] => false
  | [], _ :: _ => false
  | ne :: ents, p :: vs => entryValueOkB client ne p && entriesValuesOk client ents vs

theorem entriesValuesOk_length (client : Client) :
    ∀ (ents : List (String × MessageParamSpecEntry)) (vs : List MessageParam),
    entriesValuesOk client ents vs = true → ents.length = vs.length := by
  intro ents
  induction ents with
  | nil =>
    intro vs h
    cases vs with
    | nil => rfl
    | cons p vs => simp [entriesValuesOk] at h
  | cons ne ents ih =>
    intro vs h
    cases vs with
    | nil => simp [entriesValuesOk] at h
    | cons p vs =>
      simp only [entriesValuesOk, Bool.and_eq_true] at h
      simp [ih vs h.2]

theorem filterMap_jsLookup_zip (f : MessageParam → String) :
    ∀ (ents : List (String × MessageParamSpecEntry)) (vs : List MessageParam),
    (ents.map (fun ne => ne.1)).Nodup → ents.length = vs.length →
    (ents.filterMap (fun ne =>
        (jsLookup ((ents.map (fun ne => ne.1)).zip vs) ne.1).map f)) = vs.map f := by
  intro ents
  induction ents with
  | nil =>
    intro vs _ hlen
    cases vs with
    | nil => rfl
    | cons p vs => simp at hlen
  | cons ne ents ih =>
    intro vs hnd hlen
    cases vs with
    | nil => simp at hlen
    | cons p vs =>
      simp only [List.map_cons, List.zip_cons_cons, List.filterMap_cons]
      rw [jsLookup_cons_self]
      simp only [Option.map_some']
      have hnd' : (ents.map (fun ne => ne.1)).Nodup := (List.nodup_cons.mp hnd).2
      have hmem : ne.1 ∉ ents.map (fun ne => ne.1) := (List.nodup_cons.mp hnd).1
      have hlen' : ents.length = vs.length := by simpa using hlen
      have hcongr : ents.filterMap (fun ne' =>
            (jsLookup ((ne.1, p) :: (ents.map (fun ne => ne.1)).zip vs) ne'.1).map f) =
          ents.filterMap (fun ne' =>
            (jsLookup ((ents.map (fun ne => ne.1)).zip vs) ne'.1).map f) := by
        apply List.filterMap_congr
        intro ne' hne'
        have : ne'.1 ≠ ne.1 := by
          intro he
          exact hmem (he ▸ List.mem_map_of_mem (fun ne => ne.1) hne')
        rw [jsLookup_cons_ne _ _ _ _ this]
      rw [hcongr, ih vs hnd' hlen']

/-! ### Running the tokenizer loop -/

theorem jsFalsyStr_some_ne (c : String) (h : c ≠ "") :
    jsFalsyStr (some c) = false := by
  simp [jsFalsyStr, h]

theorem parseLineLoop_command (t : String) (rest : List String)
    (h1 : t.data.head? ≠ some '@') (h2 : t.data.head? ≠ some ':') :
    parseLineLoop (t :: rest) {} =
      parseLineLoop rest { command := some (jsToUpper t) } := by
  simp only [parseLineLoop]
  rw [if_neg (by simp [h1]), if_neg h2]
  simp [jsFalsyStr]

theorem parseLineLoop_plain (ts : List String) :
    ∀ (acc : RawLine) (c : String), acc.command = some c → c ≠ "" →
    (∀ t ∈ ts, t.data.head? ≠ some ':') →
    parseLineLoop ts acc = .ok { acc with params := acc.params ++ ts.map (fun t => ⟨t, false⟩) } := by
  induction ts with
  | nil =>
    intro acc c hc _ _
    simp [parseLineLoop]
  | cons t ts ih =>
    intro acc c hc hcne hsafe
    have hff : jsFalsyStr acc.command = false := by
      rw [hc]
      exact jsFalsyStr_some_ne c hcne
    simp only [parseLineLoop]
    rw [if_neg (by simp [hff]), if_neg (hsafe t (List.mem_cons_self t ts)),
      if_neg (by simp [hff])]
    rw [ih { acc with params := acc.params ++ [⟨t, false⟩] } c hc hcne
      (fun u hu => hsafe u (List.mem_cons_of_mem t hu))]
    simp

theorem parseLineLoop_colon_head (t0 : String) (rest : List String) (acc : RawLine)
    (c : String) (hc : acc.command = some c) (hcne : c ≠ "")
    (h0 : t0.data.head? = some ':') :
    parseLineLoop (t0 :: rest) acc =
      .ok { acc with params :=
            acc.params ++ [⟨⟨(joinSpace (t0 :: rest)).data.tail⟩, true⟩] } := by
  have hff : jsFalsyStr acc.command = false := by
    rw [hc]
    exact jsFalsyStr_some_ne c hcne
  simp only [parseLineLoop]
  rw [if_neg (by simp [hff]), if_pos h0, if_neg (by simp [hff])]

/-! ### Running the resolution loop on a fully supplied token stream -/

theorem minParamCount_cons (ne : String × MessageParamSpecEntry)
    (ents : List (String × MessageParamSpecEntry)) :
    Message.minParamCount (ne :: ents) =
      if ne.2.optional then Message.minParamCount ents
      else Message.minParamCount ents + 1 := by
  simp only [Message.minParamCount, List.filter]
  by_cases h : ne.2.optional
  · simp [h]
  · simp [h]

theorem minParamCount_le_length (ents : List (String × MessageParamSpecEntry)) :
    Message.minParamCount ents ≤ ents.length :=
  List.length_filter_le _ _

theorem all_dropLast_tail (ne : String × MessageParamSpecEntry)
    (ents : List (String × MessageParamSpecEntry))
    (h : ((ne :: ents).dropLast).all (fun e => !e.2.trailing) = true) :
    ents.dropLast.all (fun e => !e.2.trailing) = true := by
  cases ents with
  | nil => simp
  | cons ne2 ents =>
    rw [List.dropLast_cons₂] at h
    simp only [List.all_cons, Bool.and_eq_true] at h
    exact h.2

theorem head_not_trailing_of_cons (ne : String × MessageParamSpecEntry)
    (ne2 : String × MessageParamSpecEntry) (ents : List (String × MessageParamSpecEntry))
    (h : ((ne :: ne2 :: ents).dropLast).all (fun e => !e.2.trailing) = true) :
    ne.2.trailing = false := by
  rw [List.dropLast_cons₂] at h
  simp only [List.all_cons, Bool.and_eq_true] at h
  simpa using h.1

theorem parseParamsLoop_full (client : Client) (P : List MessageParam) :
    ∀ (ents : List (String × MessageParamSpecEntry)) (vs : List MessageParam) (i : Nat)
      (acc : List (String × MessageParam)),
    P.drop i = vs →
    entriesValuesOk client ents vs = true →
    ents.dropLast.all (fun ne => !ne.2.trailing) = true →
    parseParamsLoop client P ents i (Message.minParamCount ents) acc =
      .ok (acc ++ (ents.map (fun ne => ne.1)).zip vs) := by
  intro ents
  induction ents with
  | nil =>
    intro vs i acc hdrop hok _
    cases vs with
    | nil => simp [parseParamsLoop]
    | cons p vs => simp [entriesValuesOk] at hok
  | cons ne ents ih =>
    intro vs i acc hdrop hok hlast
    cases vs with
    | nil => simp [entriesValuesOk] at hok
    | cons p vs =>
      simp only [entriesValuesOk, Bool.and_eq_true] at hok
      obtain ⟨hone, hok'⟩ := hok
      simp only [entryValueOkB, Bool.and_eq_true, beq_iff_eq, Bool.not_eq_true'] at hone
      obtain ⟨⟨⟨htr, hcp⟩, hrest⟩, hsafe⟩ := hone
      have hlenPv : P.length - i = vs.length + 1 := by
        have := congrArg List.length hdrop
        simpa [List.length_drop] using this
      have hlenEv : ents.length = vs.length := entriesValuesOk_length client ents vs hok'
      have hget : P.get? i = some p := by
        rw [← head?_drop_eq_get?, hdrop]; rfl
      have hmle : Message.minParamCount ents ≤ vs.length := by
        calc Message.minParamCount ents ≤ ents.length := minParamCount_le_length ents
        _ = vs.length := hlenEv
      have hmpcle : Message.minParamCount (ne :: ents) ≤ vs.length + 1 := by
        rw [minParamCount_cons]
        by_cases h : ne.2.optional = true
        · rw [if_pos h]; omega
        · rw [if_neg h]; omega
      have hcond1 : ¬(P.length - i ≤ Message.minParamCount (ne :: ents) ∧
          ne.2.optional = true) := by
        rintro ⟨hle, hopt⟩
        rw [minParamCount_cons, hopt, if_pos rfl] at hle
        omega
      have hcond2 : ¬(P.length - i ≤ Message.minParamCount (ne :: ents) ∧
          P.length - i ≠ Message.minParamCount (ne :: ents)) := by
        rintro ⟨hle, hne⟩
        have : P.length - i < Message.minParamCount (ne :: ents) := lt_of_le_of_ne hle hne
        omega
      simp only [parseParamsLoop]
      rw [if_neg hcond1, if_neg hcond2, hget]
      simp only [hrest, false_and, if_false, ite_false, Bool.false_eq_true]
      rw [if_pos hcp]
      by_cases htrail : ne.2.trailing = true
      · have hents : ents = [] := by
          cases ents with
          | nil => rfl
          | cons ne2 ents2 =>
            have := head_not_trailing_of_cons ne ne2 ents2 hlast
            rw [this] at htrail
            exact absurd htrail (by simp)
        subst hents
        have hvs : vs = [] := by
          cases vs with
          | nil => rfl
          | cons q vs2 => simp at hlenEv
        subst hvs
        rw [if_pos htrail]
        simp
      · rw [if_neg htrail]
        have hstep : (if ne.2.optional then Message.minParamCount (ne :: ents)
            else Message.minParamCount (ne :: ents) - 1) = Message.minParamCount ents := by
          rw [minParamCount_cons]
          by_cases h : ne.2.optional
          · simp [h]
          · simp [h]
        have hdrop' : P.drop (i + 1) = vs := by
          have : P.drop (i + 1) = (P.drop i).drop 1 := by
            rw [List.drop_drop]
          rw [this, hdrop]
          rfl
        have hlast' := all_dropLast_tail ne ents hlast
        rw [hstep]
        rw [ih vs (i + 1) (acc ++ [(ne.1, p)]) hdrop' hok' hlast']
        simp

/-! ### Serialization feeds tokenization: the parse phase on serialized values -/

theorem splitCh_head (sep : Char) (s : String) :
    (splitCh sep s).head? =
      some ⟨s.data.takeWhile (fun c => !(c = sep : Bool))⟩ := by
  show (splitChAux sep s.data []).head? = _
  rw [splitChAux_eq_cons]
  simp

theorem string_eta (s : String) : (⟨s.data⟩ : String) = s := rfl

theorem empty_append_str (s : String) : "" ++ s = s := by
  apply String.ext
  simp [String.data_append]

theorem colon_append_str (s : String) : (":" ++ s) = ⟨':' :: s.data⟩ := by
  apply String.ext
  simp [String.data_append]

theorem not_contains_iff_not_mem (l : List Char) (a : Char) :
    (!l.contains a) = true ↔ a ∉ l := by
  simp [List.contains]

theorem parseLineLoop_step_plain (t : String) (rest : List String) (acc : RawLine)
    (c : String) (hc : acc.command = some c) (hcne : c ≠ "")
    (h2 : t.data.head? ≠ some ':') :
    parseLineLoop (t :: rest) acc =
      parseLineLoop rest { acc with params := acc.params ++ [⟨t, false⟩] } := by
  have hff : jsFalsyStr acc.command = false := by
    rw [hc]
    exact jsFalsyStr_some_ne c hcne
  simp only [parseLineLoop]
  rw [if_neg (by simp [hff]), if_neg h2, if_neg (by simp [hff])]

theorem parseLineLoop_values (vs : List MessageParam) :
    ∀ (acc : RawLine) (c : String),
    acc.command = some c → c ≠ "" →
    (∀ p ∈ vs.dropLast, p.trailing = false) →
    (∀ p ∈ vs, p.trailing = false → tokenSafeB p.value = true) →
    parseLineLoop
      (vs.flatMap (fun p => splitCh ' ' ((if p.trailing then ":" else "") ++ p.value))) acc =
      .ok { acc with params := acc.params ++ vs } := by
  induction vs with
  | nil =>
    intro acc c hc _ _ _
    simp [parseLineLoop]
  | cons p vs ih =>
    intro acc c hc hcne hdl hsafe
    by_cases hp : p.trailing = true
    · have hvs : vs = [] := by
        cases vs with
        | nil => rfl
        | cons q vs2 =>
          have : p ∈ (p :: q :: vs2).dropLast := by
            rw [List.dropLast_cons₂]
            exact List.mem_cons_self _ _
          have := hdl p this
          rw [hp] at this
          exact absurd this (by simp)
      subst hvs
      simp only [List.flatMap_cons, List.flatMap_nil, List.append_nil, hp, if_true, ite_true]
      rw [colon_append_str]
      cases hsp : splitCh ' ' ⟨':' :: p.value.data⟩ with
      | nil => exact absurd hsp (splitChAux_ne_nil ' ' _ [])
      | cons t0 rest =>
        have hhead : t0.data.head? = some ':' := by
          have hh := splitCh_head ' ' ⟨':' :: p.value.data⟩
          rw [hsp] at hh
          simp only [List.head?_cons, Option.some.injEq] at hh
          rw [hh]
          simp [List.takeWhile]
        rw [parseLineLoop_colon_head t0 rest acc c hc hcne hhead]
        rw [← hsp, joinSpace_splitCh]
        have ht : (⟨':' :: p.value.data⟩ : String).data.tail = p.value.data := rfl
        rw [ht]
        have hpp : (⟨⟨p.value.data⟩, true⟩ : MessageParam) = p := by
          cases p with
          | mk v t =>
            simp only at hp
            rw [hp]
        rw [hpp]
    · have hpf : p.trailing = false := by
        cases hpt : p.trailing
        · rfl
        · exact absurd hpt hp
      have hts := hsafe p (List.mem_cons_self _ _) hpf
      simp only [tokenSafeB, Bool.and_eq_true, not_contains_iff_not_mem, bne_iff_ne] at hts
      obtain ⟨hnsp, hncolon⟩ := hts
      simp only [List.flatMap_cons, hpf, Bool.false_eq_true, if_false, ite_false]
      rw [empty_append_str, splitCh_no_sep ' ' p.value hnsp]
      rw [List.singleton_append]
      rw [parseLineLoop_step_plain p.value _ acc c hc hcne hncolon]
      have hdl' : ∀ q ∈ vs.dropLast, q.trailing = false := by
        intro q hq
        apply hdl
        cases vs with
        | nil => simp at hq
        | cons r vs2 =>
          rw [List.dropLast_cons₂]
          exact List.mem_cons_of_mem _ hq
      have hsafe' : ∀ q ∈ vs, q.trailing = false → tokenSafeB q.value = true :=
        fun q hq => hsafe q (List.mem_cons_of_mem _ hq)
      rw [ih { acc with params := acc.params ++ [⟨p.value, false⟩] } c hc hcne hdl' hsafe']
      have hppf : (⟨p.value, false⟩ : MessageParam) = p := by
        cases p with
        | mk v t =>
          simp only at hpf
          rw [hpf]
      rw [hppf]
      simp

theorem entriesValuesOk_safety (client : Client) :
    ∀ (ents : List (String × MessageParamSpecEntry)) (vs : List MessageParam),
    entriesValuesOk client ents vs = true →
    ∀ p ∈ vs, p.trailing = false → tokenSafeB p.value = true := by
  intro ents
  induction ents with
  | nil =>
    intro vs hok p hp _
    cases vs with
    | nil => simp at hp
    | cons q vs2 => simp [entriesValuesOk] at hok
  | cons ne ents ih =>
    intro vs hok p hp hpf
    cases vs with
    | nil => simp [entriesValuesOk] at hok
    | cons q vs2 =>
      simp only [entriesValuesOk, Bool.and_eq_true] at hok
      obtain ⟨hone, hok'⟩ := hok
      rcases List.mem_cons.mp hp with hqe | hmem
      · subst hqe
        simp only [entryValueOkB, Bool.and_eq_true, beq_iff_eq] at hone
        obtain ⟨⟨⟨htr, _⟩, _⟩, hsafe⟩ := hone
        rw [hpf] at htr
        rw [← htr] at hsafe
        simpa using hsafe
      · exact ih vs2 hok' p hmem hpf

theorem entriesValuesOk_dropLast (client : Client) :
    ∀ (ents : List (String × MessageParamSpecEntry)) (vs : List MessageParam),
    entriesValuesOk client ents vs = true →
    ents.dropLast.all (fun ne => !ne.2.trailing) = true →
    ∀ p ∈ vs.dropLast, p.trailing = false := by
  intro ents
  induction ents with
  | nil =>
    intro vs hok _ p hp
    cases vs with
    | nil => simp at hp
    | cons q vs2 => simp [entriesValuesOk] at hok
  | cons ne ents ih =>
    intro vs hok hlast p hp
    cases vs with
    | nil => simp [entriesValuesOk] at hok
    | cons q vs2 =>
      simp only [entriesValuesOk, Bool.and_eq_true] at hok
      obtain ⟨hone, hok'⟩ := hok
      cases vs2 with
      | nil => simp at hp
      | cons r vs3 =>
        have hlen := entriesValuesOk_length client ents (r :: vs3) hok'
        cases ents with
        | nil => simp at hlen
        | cons ne2 ents2 =>
          rw [List.dropLast_cons₂] at hp
          rcases List.mem_cons.mp hp with hqe | hmem
          · subst hqe
            simp only [entryValueOkB, Bool.and_eq_true, beq_iff_eq] at hone
            obtain ⟨⟨⟨htr, _⟩, _⟩, _⟩ := hone
            rw [htr, head_not_trailing_of_cons ne ne2 ents2 hlast]
          · exact ih (r :: vs3) hok' (all_dropLast_tail ne (ne2 :: ents2) hlast) p hmem

/-- C1 (amended): for every descriptor and client whose registry maps the
descriptor's command back to it, constructing a Message via `create` from a
full set of values — one value per `PARAM_SPEC` entry (optional ones
included), each passing its validator, matching the entry's trailing flag,
with no `rest` entries, only the last entry possibly trailing, every
non-trailing value free of spaces and not starting with `:`, distinct entry
names, and an upper-case command that contains no space and does not start
with `:` or `@` — then serializing with `toString`, re-tokenizing with
`parse` and re-resolving against the same descriptor yields resolved
parameter values equal to the originals, trailing flags preserved. -/
theorem C1_create_serialize_parse_roundtrip
    (desc : MessageDescriptor) (client : Client) (vals : List (String × String))
    (vs : List MessageParam)
    (hnd : (desc.PARAM_SPEC.map (fun ne => ne.1)).Nodup)
    (hok : entriesValuesOk client desc.PARAM_SPEC vs = true)
    (hlast : desc.PARAM_SPEC.dropLast.all (fun ne => !ne.2.trailing) = true)
    (_hcreate : Message.create desc client vals =
      .ok ((desc.PARAM_SPEC.map (fun ne => ne.1)).zip vs))
    (hcmd1 : desc.COMMAND ≠ "")
    (hcmd2 : ' ' ∉ desc.COMMAND.data)
    (hcmd3 : desc.COMMAND.data.head? ≠ some ':')
    (hcmd4 : desc.COMMAND.data.head? ≠ some '@')
    (hcmd5 : jsToUpper desc.COMMAND = desc.COMMAND)
    (hreg : client.getCommandClass desc.COMMAND = some desc) :
    Message.parse
        (Message.toLine desc desc.COMMAND ((desc.PARAM_SPEC.map (fun ne => ne.1)).zip vs))
        client =
      .ok { command := desc.COMMAND, params := vs, tags := [], pfx := none,
            parsedParams := (desc.PARAM_SPEC.map (fun ne => ne.1)).zip vs } := by
  have hlen := entriesValuesOk_length client desc.PARAM_SPEC vs hok
  have hser : Message.toLine desc desc.COMMAND
        ((desc.PARAM_SPEC.map (fun ne => ne.1)).zip vs) =
      joinSpace (desc.COMMAND ::
        vs.map (fun p => (if p.trailing then ":" else "") ++ p.value)) := by
    unfold Message.toLine
    rw [filterMap_jsLookup_zip _ desc.PARAM_SPEC vs hnd hlen]
  rw [hser]
  have htoks : splitCh ' ' (joinSpace (desc.COMMAND ::
        vs.map (fun p => (if p.trailing then ":" else "") ++ p.value))) =
      desc.COMMAND ::
        vs.flatMap (fun p => splitCh ' ' ((if p.trailing then ":" else "") ++ p.value)) := by
    rw [splitCh_joinSpace _ (by simp), List.flatMap_cons, splitCh_no_sep ' ' _ hcmd2,
      List.flatMap_map]
    simp
  unfold Message.parse
  rw [htoks, parseLineLoop_command _ _ hcmd4 hcmd3, hcmd5]
  rw [parseLineLoop_values vs _ desc.COMMAND rfl hcmd1
    (entriesValuesOk_dropLast client desc.PARAM_SPEC vs hok hlast)
    (entriesValuesOk_safety client desc.PARAM_SPEC vs hok)]
  have hpp : Message.parseParams client desc.COMMAND desc.PARAM_SPEC vs =
      .ok ((desc.PARAM_SPEC.map (fun ne => ne.1)).zip vs) := by
    unfold Message.parseParams
    rw [if_neg (by
      have := minParamCount_le_length desc.PARAM_SPEC
      omega)]
    have := parseParamsLoop_full client vs desc.PARAM_SPEC vs 0 [] rfl hok hlast
    simpa using this
  have hknows : client.knowsCommand desc.COMMAND = true := by
    simp [Client.knowsCommand, hreg]
  simp only [hcmd1, if_neg, hknows, if_true, hreg, Option.getD_some, hpp]
  simp [hcmd1, hpp]

/-- A client configured as the source's default (`channelTypes = "#&"`) whose
registry knows the two commands embedded here. -/
def capClient : Client :=
  { channelTypes := "#&"
    registry := [("CAP", CapabilityNegotiation), ("INVITE", ChannelInvite)] }

/-- A full, valid named-value assignment for every `CAP` parameter. -/
def capFullValues : List (String × String) :=
  [("target", "*"), ("command", "LS"), ("version", "302"), ("continued", "*"),
   ("capabilities", "cap-a cap-b")]

/-- The parameter objects `create` builds from `capFullValues`. -/
def capFullParams : List MessageParam :=
  [⟨"*", false⟩, ⟨"LS", false⟩, ⟨"302", false⟩, ⟨"*", false⟩, ⟨"cap-a cap-b", true⟩]

/-- Witness for C1 (amended): the round trip carried out concretely on a
fully supplied `CAP` message (`CAP * LS 302 * :cap-a cap-b`). -/
theorem C1_create_serialize_parse_roundtrip_witness :
    Message.parse
        (Message.toLine CapabilityNegotiation CapabilityNegotiation.COMMAND
          ((CapabilityNegotiation.PARAM_SPEC.map (fun ne => ne.1)).zip capFullParams))
        capClient =
      .ok { command := CapabilityNegotiation.COMMAND, params := capFullParams,
            tags := [], pfx := none,
            parsedParams :=
              (CapabilityNegotiation.PARAM_SPEC.map (fun ne => ne.1)).zip capFullParams } :=
  C1_create_serialize_parse_roundtrip CapabilityNegotiation capClient capFullValues
    capFullParams (by decide) (by decide) (by decide) (by decide) (by decide)
    (by decide) (by decide) (by decide) (by decide) rfl

/-- Counterexample to C1 as stated: the fully valid named values
`target = "a b"`, `channel = "#chan"` for `INVITE` (both pass their
validators, so `create` succeeds), serialized to `INVITE a b #chan`, fail
re-resolution entirely: the space inside the non-trailing `target` value
re-tokenizes as two tokens, the resolver consumes `a` for `target` and then
rejects `b` as the required `channel`. -/
theorem C1_roundtrip_counterexample :
    Message.create ChannelInvite capClient [("target", "a b"), ("channel", "#chan")] =
      .ok [("target", ⟨"a b", false⟩), ("channel", ⟨"#chan", false⟩)] ∧
    Message.toLine ChannelInvite "INVITE"
        [("target", ⟨"a b", false⟩), ("channel", ⟨"#chan", false⟩)] = "INVITE a b #chan" ∧
    Message.parse "INVITE a b #chan" capClient =
      .error (.paramRequirementsNotMet "channel" 1 "b") := by
  refine ⟨by decide, by decide, by decide⟩

/-- C4: `minParamCount` is the number of non-optional `PARAM_SPEC` entries
(derived by counting, not stored), and a raw token stream with fewer
parameter tokens than `minParamCount` fails resolution up front with the
required-parameter-missing error, before any resolved-parameter map is
built. -/
theorem C4_minParamCount_underflow :
    (∀ spec : List (String × MessageParamSpecEntry),
      Message.minParamCount spec = spec.countP (fun ne => ne.2.optional = false)) ∧
    (∀ (client : Client) (command : String)
      (spec : List (String × MessageParamSpecEntry)) (params : List MessageParam),
      params.length < Message.minParamCount spec →
      Message.parseParams client command spec params =
        .error (.paramCountUnderflow command (Message.minParamCount spec) params.length)) := by
  constructor
  · intro spec
    rw [Message.minParamCount, ← List.countP_eq_length_filter]
    apply List.countP_congr
    intro ne _
    cases h : ne.2.optional <;> simp [h]
  · intro client command spec params h
    unfold Message.parseParams
    rw [if_pos h]

/-- Witness for C4: resolving `CAP` with zero tokens (one entry, `command`,
is required) fails with the count error. -/
theorem C4_minParamCount_underflow_witness :
    Message.parseParams capClient "CAP" CapabilityNegotiation.PARAM_SPEC [] =
      .error (.paramCountUnderflow "CAP"
        (Message.minParamCount CapabilityNegotiation.PARAM_SPEC) 0) :=
  C4_minParamCount_underflow.2 capClient "CAP" CapabilityNegotiation.PARAM_SPEC []
    (by decide)

/-- C10: `sendAndCaptureReply` on a non-capturing message class fails with
the capture-unsupported error before registering a capture and before
sending anything (empty effect trace); on a capture-supporting class it
registers the collector's capture, sends, and returns the waitable
promise. -/
theorem C10_sendAndCaptureReply (desc : MessageDescriptor) :
    (desc.SUPPORTS_CAPTURE = false →
      Message.sendAndCaptureReply desc =
        ([], .error (.captureUnsupported desc.COMMAND))) ∧
    (desc.SUPPORTS_CAPTURE = true →
      Message.sendAndCaptureReply desc =
        ([.collectRegistered, .sent], .ok ())) := by
  constructor
  · intro h
    unfold Message.sendAndCaptureReply
    rw [h]
    simp
  · intro h
    unfold Message.sendAndCaptureReply
    rw [h]
    simp

/-- Witness for C10: the generic base class (no capture support) fails with
an empty effect trace; `CAP` (capture-supporting) registers then sends. -/
theorem C10_sendAndCaptureReply_witness :
    Message.sendAndCaptureReply Message.generic =
      ([], .error (.captureUnsupported "")) ∧
    Message.sendAndCaptureReply CapabilityNegotiation =
      ([.collectRegistered, .sent], .ok ()) :=
  ⟨(C10_sendAndCaptureReply Message.generic).1 rfl,
   (C10_sendAndCaptureReply CapabilityNegotiation).2 rfl⟩

/-- C7: the wire grammar admits a tag that is a bare key with no `=value`
part, but `parseTags` on such a tag evaluates `undefined.replace(...)` and
throws a `TypeError` instead of producing a map containing the key; a whole
line carrying such a tag block fails to parse. -/
theorem C7_tag_without_value_throws :
    Message.parseTags "solo" = .error (.tagValueUndefined "solo") ∧
    Message.parse "@solo PING x" capClient = .error (.tagValueUndefined "solo") := by
  refine ⟨by decide, by decide⟩

theorem badChars_mem_iff (ch : Char) :
    ch ∈ channelBadChars ↔ ch ∈ ([' ', '\x08', '\x00', ',', '\r', '\n'] : List Char) := by
  simp only [channelBadChars, List.mem_cons, List.not_mem_nil]
  tauto

/-- The channel predicate exactly as the claim words it: first character
among the configured prefixes and the remaining characters (at least one)
exclude space, BELL (U+0007), NUL, comma, CR and LF. Stated only to compare
with the source's `isChannel`. -/
def isChannelClaim (str : String) (validTypes : String) : Bool :=
  match str.data with
  | [] => false
  | c :: rest =>
    validTypes.data.contains c && !rest.isEmpty &&
      rest.all (fun ch => !([' ', '\x07', '\x00', ',', '\r', '\n'] : List Char).contains ch)

/-- Counterexample to C9 as stated: `"#<BELL>"` contains BELL in its
remainder, so the claim's predicate rejects it, but the source's regular
expression class `[^ \b\0\n\r,]` excludes BACKSPACE (`\b` = U+0008), not
BELL, so `isChannel` accepts it; conversely a BACKSPACE remainder is
rejected by the code but not by the claim. -/
theorem C9_isChannel_counterexample :
    isChannel "#\x07" "#&" = true ∧ isChannelClaim "#\x07" "#&" = false ∧
    isChannel "#a\x08" "#&" = false ∧ isChannelClaim "#a\x08" "#&" = true := by
  refine ⟨by decide, by decide, by decide, by decide⟩

/-- C9 (amended): `isChannel(s, prefixes)` is true iff the first character of
`s` is one of the configured prefixes and the remaining characters (at least
one) exclude space, BACKSPACE (U+0008, written `\b` in the source's character
class), NUL, comma, CR and LF; the claim's concrete examples hold. -/
theorem C9_isChannel_characterization :
    (∀ s validTypes : String, isChannel s validTypes = true ↔
      ∃ c rest, s.data = c :: rest ∧ c ∈ validTypes.data ∧ rest ≠ [] ∧
        ∀ ch ∈ rest, ch ∉ ([' ', '\x08', '\x00', ',', '\r', '\n'] : List Char)) ∧
    isChannel "#foo" "#&" = true ∧ isChannel "foo" "#&" = false ∧
    isChannel "&bar" "#" = false := by
  refine ⟨?_, by decide, by decide, by decide⟩
  intro s validTypes
  unfold isChannel
  cases hs : s.data with
  | nil => simp
  | cons c rest =>
    constructor
    · intro h
      simp only [Bool.and_eq_true, List.all_eq_true] at h
      obtain ⟨⟨hc, hne⟩, hall⟩ := h
      refine ⟨c, rest, rfl, ?_, ?_, ?_⟩
      · simpa using hc
      · intro he
        rw [he] at hne
        simp at hne
      · intro ch hch
        have hnm : ch ∉ channelBadChars := by simpa using hall ch hch
        rw [← badChars_mem_iff]
        exact hnm
    · rintro ⟨c', rest', heq, hc', hne', hall'⟩
      obtain ⟨h1, h2⟩ := List.cons.inj heq
      subst h1
      subst h2
      simp only [Bool.and_eq_true, List.all_eq_true]
      refine ⟨⟨by simpa using hc', by simpa using hne'⟩, ?_⟩
      intro ch hch
      have hnm : ch ∉ channelBadChars := by
        rw [badChars_mem_iff]
        exact hall' ch hch
      simpa using hnm

/-- Counterexample to C6 as stated: the claim says an unknown escape sequence
such as `\q` collapses to the empty string, but the replacement regular
expression `/\\([\\:nrs])/g` simply does not match it, so the two characters
are left unchanged. -/
theorem C6_unknown_escape_counterexample :
    unescapeTagValue "\\q" = "\\q" ∧ unescapeTagValue "\\q" ≠ "" := by
  refine ⟨by decide, by decide⟩

theorem unescapeAux_cons_ne (c : Char) (l : List Char) (h : c ≠ '\\') :
    unescapeAux (c :: l) = c :: unescapeAux l := by
  cases l with
  | nil => simp [unescapeAux, h]
  | cons c2 r2 => simp [unescapeAux, h]

theorem unescape_escapeChar :
    ∀ l : List Char, unescapeAux (l.flatMap escapeChar) = l := by
  intro l
  induction l with
  | nil => rfl
  | cons c l ih =>
    simp only [List.flatMap_cons]
    by_cases h1 : c = '\\'
    · subst h1
      simp [escapeChar, unescapeAux, isTagEscapeChar, tagEscapeMap, ih]
    · by_cases h2 : c = ';'
      · subst h2
        simp [escapeChar, unescapeAux, isTagEscapeChar, tagEscapeMap, ih]
      · by_cases h3 : c = '\n'
        · subst h3
          simp [escapeChar, unescapeAux, isTagEscapeChar, tagEscapeMap, ih]
        · by_cases h4 : c = '\r'
          · subst h4
            simp [escapeChar, unescapeAux, isTagEscapeChar, tagEscapeMap, ih]
          · by_cases h5 : c = ' '
            · subst h5
              simp [escapeChar, unescapeAux, isTagEscapeChar, tagEscapeMap, ih]
            · rw [show escapeChar c = [c] by simp [escapeChar, h1, h2, h3, h4, h5]]
              rw [List.singleton_append, unescapeAux_cons_ne c _ h1, ih]

/-- C6 (amended): tag-value decoding replaces `\\` with `\`, `\:` with `;`,
`\n` with LF, `\r` with CR and `\s` with space — so decoding inverts the
documented encode direction — and every other backslash sequence is left
unchanged (not collapsed to the empty string): an unrecognized escape `\c`
stays `\c`, with scanning resuming at `c`. -/
theorem C6_tag_unescaping_amended :
    (∀ v : String, unescapeTagValue (escapeTagValue v) = v) ∧
    (∀ r : List Char,
      unescapeAux ('\\' :: '\\' :: r) = '\\' :: unescapeAux r ∧
      unescapeAux ('\\' :: ':' :: r) = ';' :: unescapeAux r ∧
      unescapeAux ('\\' :: 'n' :: r) = '\n' :: unescapeAux r ∧
      unescapeAux ('\\' :: 'r' :: r) = '\r' :: unescapeAux r ∧
      unescapeAux ('\\' :: 's' :: r) = ' ' :: unescapeAux r) ∧
    (∀ (c : Char) (r : List Char), isTagEscapeChar c = false →
      unescapeAux ('\\' :: c :: r) = '\\' :: c :: unescapeAux (r)) := by
  refine ⟨?_, ?_, ?_⟩
  · intro v
    unfold unescapeTagValue escapeTagValue
    rw [show (⟨v.data.flatMap escapeChar⟩ : String).data = v.data.flatMap escapeChar from rfl]
    rw [unescape_escapeChar]
  · intro r
    refine ⟨?_, ?_, ?_, ?_, ?_⟩ <;>
      simp [unescapeAux, isTagEscapeChar, tagEscapeMap]
  · intro c r h
    have hc : c ≠ '\\' := by
      intro he
      rw [he] at h
      simp [isTagEscapeChar] at h
    rw [show unescapeAux ('\\' :: c :: r) = '\\' :: unescapeAux (c :: r) by
      simp [unescapeAux, h]]
    rw [unescapeAux_cons_ne c r hc]

/-- Witness for C6 (amended): the encode/decode round trip on a value with a
backslash, a semicolon, CR, LF and a space, and the unknown escape `\q`
surviving unchanged. -/
theorem C6_tag_unescaping_amended_witness :
    unescapeTagValue (escapeTagValue "a\\b;c d\r\n") = "a\\b;c d\r\n" ∧
    unescapeAux ('\\' :: 'q' :: []) = '\\' :: 'q' :: unescapeAux ([] : List Char) :=
  ⟨C6_tag_unescaping_amended.1 "a\\b;c d\r\n",
   C6_tag_unescaping_amended.2.2 'q' [] (by decide)⟩

/-! ### The sender-prefix parser against the amended description -/

theorem splitCh_get0 (sep : Char) (s : String) :
    (splitCh sep s).get? 0 =
      some ⟨s.data.takeWhile (fun c => !(c = sep : Bool))⟩ := by
  show (splitChAux sep s.data []).get? 0 = _
  rw [splitChAux_eq_cons]
  simp

theorem splitCh_get1 (sep : Char) (s : String) :
    (splitCh sep s).get? 1 =
      match s.data.dropWhile (fun c => !(c = sep : Bool)) with
      | [] => none
      | _ :: r => some ⟨r.takeWhile (fun c => !(c = sep : Bool))⟩ := by
  show (splitChAux sep s.data []).get? 1 = _
  rw [splitChAux_eq_cons]
  cases hd : s.data.dropWhile (fun c => !(c = sep : Bool)) with
  | nil => simp
  | cons d r =>
    simp only [List.get?_cons_succ]
    show (splitChAux sep r []).get? 0 = _
    rw [splitChAux_eq_cons]
    simp

theorem dropWhile_ne_nil_iff_not_mem (sep : Char) (l : List Char) :
    l.dropWhile (fun c => !(c = sep : Bool)) = [] ↔ sep ∉ l := by
  rw [List.dropWhile_eq_nil_iff]
  constructor
  · intro h hmem
    have := h sep hmem
    simp at this
  · intro h c hc
    simp only [Bool.not_eq_true', decide_eq_false_iff_not]
    intro he
    exact h (he ▸ hc)

theorem takeWhile_all_of_not_mem (sep : Char) (l : List Char) (h : sep ∉ l) :
    l.takeWhile (fun c => !(c = sep : Bool)) = l := by
  induction l with
  | nil => rfl
  | cons c l ih =>
    have hc : c ≠ sep := fun he => h (he ▸ List.mem_cons_self c l)
    have ih2 := ih (fun hm => h (List.mem_cons_of_mem c hm))
    simp [List.takeWhile_cons, hc, ih2]

/-- The sender-prefix algorithm as the amended claim words it, written with
`takeWhile`/`dropWhile`: the nick is the text before the first `!`; when no
`!` occurs the whole text is the nick (so `nick@host` is all nick). With a
`!`, the remainder is the text between the first and a possible second `!`
(text from a second `!` on is discarded); an empty remainder yields only the
nick; otherwise the remainder is cut at `@`: no `@` (or nothing between the
first and a second `@`) makes the remainder('s first `@`-segment) the host
with no user; otherwise user is the text before the first `@` and host the
text between the first and a possible second `@`. -/
def parsePrefixSpec (raw : String) : MessagePrefix :=
  if '!' ∈ raw.data then
    let nick : String := ⟨raw.data.takeWhile (fun c => !(c = '!' : Bool))⟩
    let rem : List Char :=
      ((raw.data.dropWhile (fun c => !(c = '!' : Bool))).tail).takeWhile
        (fun c => !(c = '!' : Bool))
    if rem = [] then { raw := raw, nick := nick }
    else if '@' ∈ rem then
      let user : String := ⟨rem.takeWhile (fun c => !(c = '@' : Bool))⟩
      let hostSeg : List Char :=
        ((rem.dropWhile (fun c => !(c = '@' : Bool))).tail).takeWhile
          (fun c => !(c = '@' : Bool))
      if hostSeg = [] then { raw := raw, nick := nick, host := some user }
      else { raw := raw, nick := nick, user := some user, host := some ⟨hostSeg⟩ }
    else { raw := raw, nick := nick, host := some ⟨rem⟩ }
  else { raw := raw, nick := raw }

theorem mk_eq_empty_iff (l : List Char) : (⟨l⟩ : String) = "" ↔ l = [] := by
  constructor
  · intro h
    have := congrArg String.data h
    simpa using this
  · intro h
    rw [h]

/-- C5 (amended): `parsePrefix` behaves as `parsePrefixSpec` describes — split
on `!` keeping only the first two segments (so if `!` is absent the whole
text is the nick, which makes `"nick@host"` parse as a bare nick, and text
from a second `!` on is discarded), then split the remainder on `@` keeping
only the first two segments, an absent or empty second segment making the
remainder the host with no user. `"nick!user@host"` yields nick, user and
host; `"nick"` yields only the nick; `"nick@host"` yields only the nick
`"nick@host"`. -/
theorem C5_parsePrefix_amended :
    (∀ raw : String, Message.parsePrefix raw = parsePrefixSpec raw) ∧
    Message.parsePrefix "nick!user@host" =
      { raw := "nick!user@host", nick := "nick", user := some "user", host := some "host" } ∧
    Message.parsePrefix "nick" = { raw := "nick", nick := "nick" } ∧
    Message.parsePrefix "nick@host" = { raw := "nick@host", nick := "nick@host" } := by
  refine ⟨?_, by decide, by decide, by decide⟩
  intro raw
  simp only [Message.parsePrefix, parsePrefixSpec, splitCh_get0, splitCh_get1,
    Option.getD_some]
  by_cases hmem : '!' ∈ raw.data
  · rw [if_pos hmem]
    cases hd : raw.data.dropWhile (fun c => !(c = '!' : Bool)) with
    | nil => exact absurd ((dropWhile_ne_nil_iff_not_mem '!' raw.data).mp hd) (fun h => h hmem)
    | cons d r =>
      simp only [List.tail_cons]
      by_cases hrem : r.takeWhile (fun c => !(c = '!' : Bool)) = []
      · rw [hrem]
        simp
      · rw [if_neg ((not_iff_not.mpr (mk_eq_empty_iff _)).mpr hrem), if_neg hrem]
        by_cases hat : '@' ∈ r.takeWhile (fun c => !(c = '!' : Bool))
        · rw [if_pos hat]
          cases hd2 : (r.takeWhile (fun c => !(c = '!' : Bool))).dropWhile
              (fun c => !(c = '@' : Bool)) with
          | nil =>
            exact absurd ((dropWhile_ne_nil_iff_not_mem '@' _).mp hd2) (fun h => h hat)
          | cons d2 r2 =>
            simp only [List.tail_cons]
            by_cases hseg : r2.takeWhile (fun c => !(c = '@' : Bool)) = []
            · rw [hseg]
              simp
            · rw [if_neg ((not_iff_not.mpr (mk_eq_empty_iff _)).mpr hseg), if_neg hseg]
        · rw [if_neg hat]
          rw [(dropWhile_ne_nil_iff_not_mem '@' _).mpr hat]
          rw [takeWhile_all_of_not_mem '@' _ hat]
  · rw [if_neg hmem]
    rw [(dropWhile_ne_nil_iff_not_mem '!' raw.data).mpr hmem]
    rw [takeWhile_all_of_not_mem '!' raw.data hmem]

/-- Counterexample to C5 as stated: the claim's example says `"nick@host"`
yields `{nick, host}`, but `parsePrefix` only looks for `@` after a `!` was
found, so the whole text becomes the nick and no host is set. -/
theorem C5_parsePrefix_counterexample :
    Message.parsePrefix "nick@host" =
      { raw := "nick@host", nick := "nick@host", user := none, host := none } ∧
    (Message.parsePrefix "nick@host").host = none ∧
    (Message.parsePrefix "nick@host").nick ≠ "nick" := by
  refine ⟨by decide, by decide, by decide⟩

/-- C8 (amended): a line whose command is not in the registry parses
successfully (an unknown command alone never fails a parse), falling back to
the generic base class — whose `PARAM_SPEC` is empty, not a one-entry
rest-like catch-all — so the resolved-parameter map is empty and the raw
parameter values are retained only as the message's raw token list. -/
theorem C8_unknown_command_generic (line : String) (client : Client) (raw : RawLine)
    (cmd : String)
    (hloop : parseLineLoop (splitCh ' ' line) {} = .ok raw)
    (hcmd : raw.command = some cmd)
    (hne : cmd ≠ "")
    (hunknown : client.knowsCommand cmd = false) :
    Message.parse line client =
      .ok { command := cmd, params := raw.params, tags := raw.tags.getD [],
            pfx := raw.pfx, parsedParams := [] } := by
  unfold Message.parse
  rw [hloop]
  simp only [hcmd]
  rw [if_neg hne]
  rw [hunknown]
  have hgen : Message.parseParams client cmd Message.generic.PARAM_SPEC raw.params =
      .ok [] := by
    unfold Message.parseParams
    simp [Message.minParamCount, Message.generic, parseParamsLoop]
  simp only [Bool.false_eq_true, if_false, ite_false, hgen]

/-- Witness for C8 (amended): `FOO a b` with an empty registry parses into a
generic message with an empty resolved-parameter map. -/
theorem C8_unknown_command_generic_witness :
    Message.parse "FOO a b" ({} : Client) =
      .ok { command := "FOO", params := [⟨"a", false⟩, ⟨"b", false⟩], tags := [],
            pfx := none, parsedParams := [] } :=
  C8_unknown_command_generic "FOO a b" {}
    { tags := none, pfx := none, command := some "FOO",
      params := [⟨"a", false⟩, ⟨"b", false⟩] }
    "FOO" (by decide) rfl (by decide) rfl

/-- Counterexample to C8 as stated: the unknown command `FOO` parses, but the
fallback descriptor's parameter spec is empty — the resolved-parameter map
has zero entries, not a sole rest-like catch-all holding `"a b"`. -/
theorem C8_fallback_counterexample :
    Message.parse "FOO a b" ({} : Client) =
      .ok { command := "FOO", params := [⟨"a", false⟩, ⟨"b", false⟩], tags := [],
            pfx := none, parsedParams := [] } ∧
    Message.generic.PARAM_SPEC.length = 0 ∧
    (Message.parse "FOO a b" ({} : Client)).map (fun m => m.parsedParams.length) =
      .ok 0 := by
  refine ⟨by decide, by decide, by decide⟩

/-- C3 (amended): when the single consumed token of a non-`rest` entry fails
its validator, an optional entry is skipped with the raw-token index
unchanged (the walk continues — or stops, for a trailing entry — at the same
index `i`), and a non-optional entry fails the whole resolution; for `rest`
entries this index preservation does NOT hold: the collection loop advances
the index before validation runs, so the collected tokens stay consumed even
when the joined value is rejected and the optional entry skipped. -/
theorem C3_validator_failure (client : Client) (P : List MessageParam) (name : String)
    (e : MessageParamSpecEntry) (ents : List (String × MessageParamSpecEntry))
    (i requiredLeft : Nat) (acc : List (String × MessageParam)) (p : MessageParam)
    (hrest : e.rest = false)
    (h1 : ¬(P.length - i ≤ requiredLeft ∧ e.optional = true))
    (h2 : ¬(P.length - i ≤ requiredLeft ∧ P.length - i ≠ requiredLeft))
    (hget : P.get? i = some p)
    (hfail : checkParam client p.value e = false) :
    parseParamsLoop client P ((name, e) :: ents) i requiredLeft acc =
      (if e.optional = true then
        (if e.trailing = true then .ok acc
         else parseParamsLoop client P ents i requiredLeft acc)
       else .error (.paramRequirementsNotMet name i p.value)) := by
  simp only [parseParamsLoop]
  rw [if_neg h1, if_neg h2, hget]
  simp only [hrest, Bool.false_eq_true, false_and, if_false, ite_false, hfail]
  by_cases hopt : e.optional = true
  · rw [if_pos hopt]
    have : (e.optional = false) = False := by simp [hopt]
    simp [this]
  · rw [if_neg hopt]
    have hof : e.optional = false := by
      cases ho : e.optional
      · rfl
      · exact absurd ho hopt
    simp [hof]

/-- Witness for C3 (amended): a required channel-typed entry rejecting `"b"`
fails the resolution with the entry's index; an optional channel-typed entry
rejecting `"b"` is skipped and the walk continues on the remaining entries
at the unchanged index 0. -/
theorem C3_validator_failure_witness :
    parseParamsLoop capClient [⟨"b", false⟩] [("channel", { chanType := true })] 0 1 [] =
      .error (.paramRequirementsNotMet "channel" 0 "b") ∧
    parseParamsLoop capClient [⟨"b", false⟩, ⟨"#c", false⟩]
        [("channel", { chanType := true, optional := true }), ("next", {})] 0 1 [] =
      parseParamsLoop capClient [⟨"b", false⟩, ⟨"#c", false⟩] [("next", {})] 0 1 [] := by
  constructor
  · have h := C3_validator_failure capClient [⟨"b", false⟩] "channel"
      { chanType := true } [] 0 1 [] ⟨"b", false⟩ rfl
      (by simp) (by simp) rfl (by decide)
    simpa using h
  · have h := C3_validator_failure capClient [⟨"b", false⟩, ⟨"#c", false⟩] "channel"
      { chanType := true, optional := true } [("next", {})] 0 1 [] ⟨"b", false⟩ rfl
      (by simp) (by simp) rfl (by decide)
    simpa using h

/-- Counterexample to C3 as stated for `rest` entries: an optional `rest`
entry whose pattern `^x$` rejects the joined value `"y"` is skipped, but the
collected token `y` stays consumed — the following required entry `b`
resolves to the TRAILING token `z`, not to the claim's unchanged-index token
`y`. -/
theorem C3_rest_consumption_counterexample :
    Message.parseParams capClient "RTEST"
        [("a", { rest := true, optional := true, matchPat := some (fun s => s = "x") }),
         ("b", {})]
        [⟨"y", false⟩, ⟨"z", true⟩] =
      .ok [("b", ⟨"z", true⟩)] ∧
    Message.parseParams capClient "RTEST"
        [("a", { rest := true, optional := true, matchPat := some (fun s => s = "x") }),
         ("b", {})]
        [⟨"y", false⟩, ⟨"z", true⟩] ≠
      .ok [("b", ⟨"y", false⟩)] := by
  refine ⟨by decide, by decide⟩

/-! ### Capability-negotiation reply matching -/

theorem capIsResponseTo_none (reply orig : List (String × MessageParam))
    (h : paramValue reply "command" = none) :
    CapabilityNegotiation.isResponseTo true reply orig = some false := by
  unfold CapabilityNegotiation.isResponseTo
  rw [h]
  rfl

theorem capIsResponseTo_some (reply orig : List (String × MessageParam)) (c : String)
    (h : paramValue reply "command" = some c) :
    CapabilityNegotiation.isResponseTo true reply orig =
      (if c = "ACK" ∨ c = "NAK" then
        (if paramValue orig "command" = some "REQ" then
          match paramValue reply "capabilities" with
          | none => none
          | some rc => some (decide (paramValue orig "capabilities" = some (jsTrim rc)))
         else some false)
       else if c = "LS" ∨ c = "LIST" then
         some (decide (paramValue orig "command" = some c))
       else some false) := by
  unfold CapabilityNegotiation.isResponseTo
  rw [h]
  rfl

theorem capEndsResponseTo_some (reply : List (String × MessageParam)) (c : String)
    (h : paramValue reply "command" = some c) :
    CapabilityNegotiation.endsResponseTo true reply =
      (if c = "LS" ∨ c = "LIST" then !paramTruthy reply "continued" else true) := by
  unfold CapabilityNegotiation.endsResponseTo
  rw [h]
  rfl

theorem offerMessage_closed (origIsCap : Bool) (orig : List (String × MessageParam))
    (pc : PendingCapture) (m : List (String × MessageParam)) (h : pc.closed = true) :
    offerMessage origIsCap orig pc m = pc := by
  unfold offerMessage
  rw [if_pos h]

theorem foldl_offerMessage_closed (origIsCap : Bool) (orig : List (String × MessageParam))
    (ms : List (List (String × MessageParam))) :
    ∀ (pc : PendingCapture), pc.closed = true →
    ms.foldl (offerMessage origIsCap orig) pc = pc := by
  induction ms with
  | nil => intro pc _; rfl
  | cons m ms ih =>
    intro pc h
    rw [List.foldl_cons, offerMessage_closed origIsCap orig pc m h, ih pc h]

/-- C2: for capability-negotiation message pairs, `isResponseTo` returns
`true` exactly when (a) the reply's sub-command is `ACK` or `NAK`, the
originating sub-command is `REQ`, and the originating capabilities value
equals the reply's capabilities value with whitespace trimmed on the reply
side only, or (b) the reply's sub-command is `LS` or `LIST` and the
originating sub-command equals it; an `ACK`/`NAK` reply's `endsResponseTo`
is unconditionally true; hence a capture for a `REQ` that accepts an
`ACK`/`NAK` reply closes at once and accumulates exactly that one message,
whatever arrives afterwards. -/
theorem C2_cap_reply_matching :
    (∀ reply orig : List (String × MessageParam),
      CapabilityNegotiation.isResponseTo true reply orig = some true ↔
        (((paramValue reply "command" = some "ACK" ∨
           paramValue reply "command" = some "NAK") ∧
          paramValue orig "command" = some "REQ" ∧
          ∃ rc, paramValue reply "capabilities" = some rc ∧
            paramValue orig "capabilities" = some (jsTrim rc)) ∨
         ((paramValue reply "command" = some "LS" ∨
           paramValue reply "command" = some "LIST") ∧
          paramValue orig "command" = paramValue reply "command"))) ∧
    (∀ reply : List (String × MessageParam),
      (paramValue reply "command" = some "ACK" ∨
       paramValue reply "command" = some "NAK") →
      CapabilityNegotiation.endsResponseTo true reply = true) ∧
    (∀ (orig m : List (String × MessageParam))
      (ms : List (List (String × MessageParam))),
      CapabilityNegotiation.isResponseTo true m orig = some true →
      (paramValue m "command" = some "ACK" ∨ paramValue m "command" = some "NAK") →
      (ms.foldl (offerMessage true orig) (offerMessage true orig {} m)).accumulated =
        [m]) := by
  refine ⟨?_, ?_, ?_⟩
  · intro reply orig
    cases hc : paramValue reply "command" with
    | none =>
      rw [capIsResponseTo_none reply orig hc]
      simp
    | some c =>
      rw [capIsResponseTo_some reply orig c hc]
      by_cases hak : c = "ACK" ∨ c = "NAK"
      · rw [if_pos hak]
        rcases hak with ha | ha <;> subst ha <;>
        · by_cases hreq : paramValue orig "command" = some "REQ"
          · rw [if_pos hreq]
            cases hcap : paramValue reply "capabilities" with
            | none => simp [hreq, hcap]
            | some rc => simp [hreq, hcap]
          · rw [if_neg hreq]
            simp [hreq]
      · rw [if_neg hak]
        push_neg at hak
        by_cases hls : c = "LS" ∨ c = "LIST"
        · rw [if_pos hls]
          rcases hls with h | h <;> subst h <;> simp
        · rw [if_neg hls]
          push_neg at hls
          simp [hak.1, hak.2, hls.1, hls.2]
  · intro reply hak
    rcases hak with h | h <;> rw [capEndsResponseTo_some reply _ h] <;> simp
  · intro orig m ms hresp hak
    have hends : CapabilityNegotiation.endsResponseTo true m = true := by
      rcases hak with h | h <;> rw [capEndsResponseTo_some m _ h] <;> simp
    have hfirst : offerMessage true orig {} m =
        { accumulated := [m], closed := true } := by
      unfold offerMessage
      rw [if_neg (by simp), if_pos hresp]
      simp [hends]
    rw [hfirst, foldl_offerMessage_closed true orig ms _ rfl]

/-- The resolved parameters of the outgoing `CAP REQ :multi-prefix`. -/
def origREQ : List (String × MessageParam) :=
  [("command", ⟨"REQ", false⟩), ("capabilities", ⟨"multi-prefix", true⟩)]

/-- The resolved parameters of the inbound `CAP * ACK :multi-prefix ` reply
(note the server's stray trailing space inside the trailing value). -/
def replyACK : List (String × MessageParam) :=
  [("target", ⟨"*", false⟩), ("command", ⟨"ACK", false⟩),
   ("capabilities", ⟨"multi-prefix ", true⟩)]

/-- Witness for C2: sending `CAP REQ :multi-prefix` and receiving
`CAP * ACK :multi-prefix ` (equal after the reply-side trim) completes the
capture with exactly that one accumulated message, and the `ACK` reply ends
the exchange. -/
theorem C2_cap_reply_matching_witness :
    (([] : List (List (String × MessageParam))).foldl (offerMessage true origREQ)
        (offerMessage true origREQ {} replyACK)).accumulated = [replyACK] ∧
    CapabilityNegotiation.endsResponseTo true replyACK = true :=
  ⟨C2_cap_reply_matching.2.2 origREQ replyACK [] (by decide) (by decide),
   C2_cap_reply_matching.2.1 replyACK (by decide)⟩
